import Mathlib

/-!
Verification of `git_commit_analyzer.py` (LLMsquash).

The script is a linear pipeline: a commit Lister (`get_commits`, shelling out
to `git log --pretty=format:%H %s`), a Summarizer (`summarize_commits`,
building a prompt and extracting `choices[0].message.content` from the JSON
reply), a History Squasher (`squash_commits`, issuing `git reset --soft` /
`git commit --amend`), and CLI glue under `__main__`.

Embedding choices:
* Python `str` is modelled as `List Char` (`Str`); `str.strip()`, `str.split()`
  (no argument, whitespace runs), `str.split('\n')`, `' '.join`, `str.lower()`
  and slicing `[:7]` are modelled by the functions `pyStrip`, `pySplit`,
  `splitLines`, `List.intercalate [' ']`, `pyLower`, `List.take 7`.
* The repository is modelled as the list of its commits, newest first; the
  stdout of `git log` is derived from it by `gitLogStdout`.  An empty
  repository produces empty stdout.  A negative `-n` value makes git ignore
  the limit, a nonneg value takes that many newest commits.
* Fallible Python code (uncaught `IndexError` / `KeyError`) is modelled with
  `Option`: `none` is an uncaught exception.
* Subprocess calls that mutate the repository are recorded as a `GitCmd`
  trace; `os.chdir` scoping and printing are irrelevant to the claims and are
  not modelled beyond the outcome constructors.
-/

namespace LLMsquash

/-- Python strings, modelled as lists of characters. -/
abbrev Str := List Char

/-- The whitespace test used by Python's `str.strip()` and `str.split()`
(ASCII whitespace). -/
def pyIsSpace (c : Char) : Bool :=
  c = ' ' || c = '\t' || c = '\n' || c = '\r' || c = '\x0b' || c = '\x0c'

/-- Python `s.strip()`: remove leading and trailing whitespace. -/
def pyStrip (s : Str) : Str :=
  ((s.dropWhile pyIsSpace).reverse.dropWhile pyIsSpace).reverse

/-- Python `s.split()` (no argument): split on runs of whitespace, dropping
empty fields. -/
def pySplit (s : Str) : List Str :=
  (s.splitOnP pyIsSpace).filter (fun t => !t.isEmpty)

/-- Python `s.split('\n')`: split at every newline, keeping empty fields;
`''.split('\n') = ['']`. -/
def splitLines (s : Str) : List Str :=
  s.splitOnP (fun c => c = '\n')

/-- Python `s.lower()` (ASCII lowering suffices for the y/n prompt). -/
def pyLower (s : Str) : Str :=
  s.map Char.toLower

/-- A parsed commit: `{'hash': ..., 'message': ...}` in the script. -/
structure Commit where
  hash : Str
  message : Str
deriving Repr, DecidableEq

/-- One line of `git log --pretty=format:%H %s` output for a commit. -/
def formatLogLine (c : Commit) : Str :=
  c.hash ++ ' ' :: c.message

/-- The sublist of commits selected by `git log` for a given `-n` value:
no flag, or a nonnegative count, or a negative count (which git ignores). -/
def gitLogSelect (repo : List Commit) (limit : Option Int) : List Commit :=
  match limit with
  | none => repo
  | some n => if n < 0 then repo else repo.take n.toNat

/-- stdout of `git log --pretty=format:%H %s` (no trailing newline; empty
for an empty repository). -/
def gitLogStdout (repo : List Commit) (limit : Option Int) : Str :=
  List.intercalate ['\n'] ((gitLogSelect repo limit).map formatLogLine)

/-- The per-line parse in `get_commits`:
`{'hash': c.split()[0], 'message': ' '.join(c.split()[1:])}`.
`none` models the `IndexError` raised by `c.split()[0]` when the line has no
token. -/
def parseLine (c : Str) : Option Commit :=
  match pySplit c with
  | [] => none
  | h :: t => some ⟨h, List.intercalate [' '] t⟩

/-- The list comprehension over all lines; the first failing line aborts the
whole call (uncaught exception). -/
def parseAll : List Str → Option (List Commit)
  | [] => some []
  | l :: ls =>
    match parseLine l, parseAll ls with
    | some c, some cs => some (c :: cs)
    | _, _ => none

/-- The effective `-n` argument: `if num_commits:` is a Python truthiness
test, so `None` and `0` both mean "no `-n` flag". -/
def effLimit (num_commits : Option Int) : Option Int :=
  match num_commits with
  | none => none
  | some n => if n = 0 then none else some n

/-- `get_commits(repo_path, num_commits)`: run `git log`, strip the captured
stdout, split it into lines and parse each line. -/
def get_commits (repo : List Commit) (num_commits : Option Int) : Option (List Commit) :=
  parseAll (splitLines (pyStrip (gitLogStdout repo (effLimit num_commits))))

/-- The image of a commit under a lossless-up-to-whitespace round trip
through the log format and the line parser: the hash survives exactly, the
message has its internal whitespace runs collapsed to single spaces. -/
def parsedCommit (c : Commit) : Commit :=
  ⟨c.hash, List.intercalate [' '] (pySplit c.message)⟩

/-- A commit whose log line round-trips: nonempty whitespace-free hash,
nonempty message with no newline and no trailing whitespace (git cleans
subject lines, and `%H` hashes are hex). -/
def WFCommit (c : Commit) : Prop :=
  c.hash ≠ [] ∧ (∀ ch ∈ c.hash, pyIsSpace ch = false) ∧
  c.message ≠ [] ∧ ('\n') ∉ c.message ∧
  (c.message.getLast?.all fun ch => !pyIsSpace ch) = true

instance (c : Commit) : Decidable (WFCommit c) := by
  unfold WFCommit
  infer_instance

/-- The line rendered for a commit in the Summarizer's prompt:
`f"{c['hash'][:7]}: {c['message']}"`. -/
def commitLine (c : Commit) : Str :=
  c.hash.take 7 ++ ':' :: ' ' :: c.message

/-- The joined commit lines: `"\n".join(...)` in `summarize_commits`. -/
def commit_messages (commits : List Commit) : Str :=
  List.intercalate ['\n'] (commits.map commitLine)

/-- The fixed instruction prefixed to the commit lines in the prompt. -/
def promptInstr : Str :=
  "Summarize the following git commits and suggest a single commit message that encompasses all changes:\n\n".toList

/-- The full prompt sent to the remote service. -/
def buildPrompt (commits : List Commit) : Str :=
  promptInstr ++ commit_messages commits

/-- JSON values, as returned by `response.json()`. -/
inductive JVal where
  | jnull
  | jbool (b : Bool)
  | jnum (n : Int)
  | jstr (s : Str)
  | jarr (xs : List JVal)
  | jobj (fields : List (Str × JVal))

/-- Python subscripting `d[k]` on a JSON object; `none` models the
`KeyError`/`TypeError` raised otherwise. -/
def JVal.getField : JVal → Str → Option JVal
  | .jobj fs, k => fs.lookup k
  | _, _ => none

/-- Python subscripting `a[i]` on a JSON array; `none` models the
`IndexError`/`TypeError` raised otherwise. -/
def JVal.getIndex : JVal → Nat → Option JVal
  | .jarr xs, i => xs.get? i
  | _, _ => none

/-- A JSON value as a Python string, if it is one. -/
def JVal.asString : JVal → Option Str
  | .jstr s => some s
  | _ => none

/-- The response handling of `summarize_commits`:
`response_json['choices'][0]['message']['content'].strip()`.  `none` models
an uncaught lookup failure on an unexpected shape. -/
def extract_summary (response_json : JVal) : Option Str := do
  let choices ← response_json.getField "choices".toList
  let c0 ← choices.getIndex 0
  let msg ← c0.getField "message".toList
  let content ← msg.getField "content".toList
  let s ← content.asString
  some (pyStrip s)

/-- Mutating git subprocess invocations issued by `squash_commits`. -/
inductive GitCmd where
  | resetSoft (n : Int)
  | commitAmend (msg : Str)
deriving Repr, DecidableEq

/-- What a `squash_commits` call did: its mutating git commands, in order,
and whether it printed "No commits to squash.". -/
structure SquashEffect where
  cmds : List GitCmd
  printedNoCommits : Bool
deriving Repr, DecidableEq

/-- `squash_commits(repo_path, new_message, num_commits)`.  The
`git rev-list --count HEAD` query is modelled by the `total_commits`
parameter (the repository's true commit count). -/
def squash_commits (new_message : Str) (num_commits total_commits : Int) : SquashEffect :=
  let commits_to_squash := min num_commits total_commits
  if commits_to_squash > 1 then
    ⟨[.resetSoft (commits_to_squash - 1), .commitAmend new_message], false⟩
  else if commits_to_squash = 1 then
    ⟨[.commitAmend new_message], false⟩
  else
    ⟨[], true⟩

/-- Observable outcome of one run of the `__main__` block.  `configError`
is the missing-API-key path (prints the error, `exit(1)`); `listerCrash`
and `remoteCrash` are uncaught exceptions in `get_commits` and
`summarize_commits`; `cancelled` prints "Operation cancelled."; `squashed`
runs the Squasher and then prints "Commits have been squashed.". -/
inductive MainOutcome where
  | configError
  | listerCrash
  | remoteCrash (commits : List Commit)
  | cancelled (commits : List Commit) (summary : Str)
  | squashed (commits : List Commit) (summary : Str) (effect : SquashEffect)
deriving Repr, DecidableEq

/-- The mutating git commands a run issues. -/
def MainOutcome.mutations : MainOutcome → List GitCmd
  | .squashed _ _ e => e.cmds
  | _ => []

/-- The process exit status of a run (1 for the explicit `exit(1)` and for
an uncaught exception, 0 otherwise). -/
def MainOutcome.exitCode : MainOutcome → Nat
  | .configError => 1
  | .listerCrash => 1
  | .remoteCrash _ => 1
  | _ => 0

/-- The `__main__` block: check the API key (Python truthiness: unset or
empty is falsy), list the commits, summarize them, ask for confirmation,
and squash only on a case-insensitive `y`.  The remote's reply is the
`response_json` parameter; the confirmation answer is `confirm`. -/
def main_flow (api_key : Option Str) (repo : List Commit) (num_arg : Option Int)
    (response_json : JVal) (confirm : Str) : MainOutcome :=
  match api_key with
  | none => .configError
  | some k =>
    if k.isEmpty then .configError
    else
      match get_commits repo num_arg with
      | none => .listerCrash
      | some commits =>
        match extract_summary response_json with
        | none => .remoteCrash commits
        | some summary =>
          if pyLower confirm = ['y'] then
            .squashed commits summary
              (squash_commits summary (commits.length : Int) (repo.length : Int))
          else
            .cancelled commits summary

/-- Sample summary message, used as concrete input for witnesses. -/
def sampleMsg : Str := "combined commit".toList

/-- Sample two-commit repository (newest first), used for witnesses. -/
def sampleRepo : List Commit :=
  [⟨"abc123".toList, "fix bug".toList⟩, ⟨"def456".toList, "add feature".toList⟩]

/-- Sample one-commit repository, used for the limit-0 counterexample. -/
def oneCommitRepo : List Commit := [⟨"abc123".toList, "fix bug".toList⟩]

/-- The `message` object of the mocked remote response. -/
def mockMessage : JVal := .jobj [("content".toList, .jstr " foo bar ".toList)]

/-- The first (and only) choice of the mocked remote response. -/
def mockChoice : JVal := .jobj [("message".toList, mockMessage)]

/-- The mocked remote response
`{"choices":[{"message":{"content":" foo bar "}}]}` from the spec. -/
def mockResponse : JVal := .jobj [("choices".toList, .jarr [mockChoice])]

/-! Helper lemmas about the string model. -/

lemma intercalate_single (s a : Str) : List.intercalate s [a] = a := by
  simp [List.intercalate]

lemma intercalate_cons_cons' (s a b : Str) (t : List Str) :
    List.intercalate s (a :: b :: t) = a ++ s ++ List.intercalate s (b :: t) := by
  simp [List.intercalate, List.intersperse_cons_cons, List.append_assoc]

lemma intercalate_ne_nil (s a : Str) (t : List Str) (ha : a ≠ []) :
    List.intercalate s (a :: t) ≠ [] := by
  cases t with
  | nil => simpa [intercalate_single] using ha
  | cons b t => rw [intercalate_cons_cons']; simp [ha]

lemma head?_intercalate (s a : Str) (t : List Str) (ha : a ≠ []) :
    (List.intercalate s (a :: t)).head? = a.head? := by
  cases t with
  | nil => rw [intercalate_single]
  | cons b t =>
    rw [intercalate_cons_cons', List.append_assoc]
    exact List.head?_append_of_ne_nil _ ha

lemma getLast?_intercalate (s : Str) :
    ∀ ls : List Str, (∀ l ∈ ls, l ≠ []) →
      (List.intercalate s ls).getLast? = ls.getLast?.bind List.getLast?
  | [], _ => by simp [List.intercalate]
  | [a], _ => by simp [intercalate_single]
  | a :: b :: t, h => by
    rw [intercalate_cons_cons', List.append_assoc,
      List.getLast?_append_of_ne_nil _
        (List.append_ne_nil_of_right_ne_nil s
          (intercalate_ne_nil s b t (h b (by simp)))),
      List.getLast?_append_of_ne_nil _
        (intercalate_ne_nil s b t (h b (by simp))),
      getLast?_intercalate s (b :: t) (fun l hl => h l (by simp [hl]))]
    simp

lemma dropWhile_eq_self (p : Char → Bool) (l : Str)
    (h : ∀ a, l.head? = some a → p a = false) : l.dropWhile p = l := by
  cases l with
  | nil => rfl
  | cons a t => simp [List.dropWhile_cons, h a rfl]

lemma pyStrip_eq_self (l : Str)
    (h1 : ∀ a, l.head? = some a → pyIsSpace a = false)
    (h2 : ∀ a, l.getLast? = some a → pyIsSpace a = false) :
    pyStrip l = l := by
  unfold pyStrip
  rw [dropWhile_eq_self _ _ h1,
    dropWhile_eq_self _ _ (fun a ha => h2 a (by simpa using ha)),
    List.reverse_reverse]

lemma splitLines_intercalate (ls : List Str) (hne : ls ≠ [])
    (hx : ∀ l ∈ ls, ('\n') ∉ l) :
    splitLines (List.intercalate ['\n'] ls) = ls := by
  induction ls with
  | nil => exact absurd rfl hne
  | cons a t ih =>
    cases t with
    | nil =>
      rw [intercalate_single]
      refine List.splitOnP_eq_single _ _ ?_
      intro x hxa hpx
      have hx' : x = '\n' := of_decide_eq_true hpx
      exact hx a (by simp) (hx' ▸ hxa)
    | cons b t' =>
      rw [intercalate_cons_cons',
        show a ++ ['\n'] ++ List.intercalate ['\n'] (b :: t') =
          a ++ '\n' :: List.intercalate ['\n'] (b :: t') by simp]
      unfold splitLines
      rw [List.splitOnP_first (fun c => decide (c = '\n')) a
        (fun x hxa hpx => hx a (by simp) ((of_decide_eq_true hpx) ▸ hxa))
        '\n' (by simp) _]
      have := ih (by simp) (fun l hl => hx l (by simp [hl]))
      unfold splitLines at this
      rw [this]

/-! Helper lemmas about log lines of well-formed commits. -/

lemma formatLogLine_ne_nil (c : Commit) : formatLogLine c ≠ [] := by
  simp [formatLogLine]

lemma newline_not_mem_formatLogLine (c : Commit) (h : WFCommit c) :
    ('\n') ∉ formatLogLine c := by
  obtain ⟨_, h2, _, h4, _⟩ := h
  intro hmem
  rw [formatLogLine] at hmem
  rcases List.mem_append.1 hmem with hm | hm
  · have := h2 '\n' hm
    simp [pyIsSpace] at this
  · rcases List.mem_cons.1 hm with hm' | hm'
    · exact absurd hm' (by decide)
    · exact h4 hm'

lemma head?_formatLogLine (c : Commit) (h1 : c.hash ≠ []) :
    (formatLogLine c).head? = c.hash.head? := by
  unfold formatLogLine
  exact List.head?_append_of_ne_nil _ h1

lemma getLast?_formatLogLine (c : Commit) (h : c.message ≠ []) :
    (formatLogLine c).getLast? = c.message.getLast? := by
  unfold formatLogLine
  rw [show c.hash ++ ' ' :: c.message = (c.hash ++ [' ']) ++ c.message by simp]
  exact List.getLast?_append_of_ne_nil _ h

lemma pyStrip_logStdout (sel : List Commit) (hne : sel ≠ [])
    (hwf : ∀ c ∈ sel, WFCommit c) :
    pyStrip (List.intercalate ['\n'] (sel.map formatLogLine)) =
      List.intercalate ['\n'] (sel.map formatLogLine) := by
  apply pyStrip_eq_self
  · intro a ha
    cases sel with
    | nil => exact absurd rfl hne
    | cons c t =>
      rw [List.map_cons, head?_intercalate _ _ _ (formatLogLine_ne_nil c),
        head?_formatLogLine c (hwf c (by simp)).1] at ha
      exact (hwf c (by simp)).2.1 a (List.mem_of_mem_head? (by simp [ha]))
  · intro a ha
    rw [getLast?_intercalate _ _
      (fun l hl => by
        obtain ⟨c, _, rfl⟩ := List.mem_map.1 hl
        exact formatLogLine_ne_nil c),
      List.getLast?_map] at ha
    obtain ⟨z, hz⟩ := Option.isSome_iff_exists.1 (List.getLast?_isSome.2 hne)
    rw [hz] at ha
    have hzmem : z ∈ sel := List.mem_of_mem_getLast? (by simp [hz])
    obtain ⟨_, _, h3, _, h5⟩ := hwf z hzmem
    simp only [Option.map_some', Option.some_bind,
      getLast?_formatLogLine z h3] at ha
    rw [ha] at h5
    simpa using h5

lemma pySplit_formatLogLine (c : Commit) (hh : c.hash ≠ [])
    (hsp : ∀ ch ∈ c.hash, pyIsSpace ch = false) :
    pySplit (formatLogLine c) = c.hash :: pySplit c.message := by
  unfold pySplit formatLogLine
  rw [List.splitOnP_first pyIsSpace c.hash
    (fun x hx hpx => by simp [hsp x hx] at hpx) ' ' (by decide) c.message,
    List.filter_cons]
  simp [hh]

lemma parseLine_formatLogLine (c : Commit) (h : WFCommit c) :
    parseLine (formatLogLine c) = some (parsedCommit c) := by
  obtain ⟨h1, h2, _, _, _⟩ := h
  unfold parseLine
  rw [pySplit_formatLogLine c h1 h2]
  rfl

lemma parseAll_map_formatLogLine (sel : List Commit)
    (hwf : ∀ c ∈ sel, WFCommit c) :
    parseAll (sel.map formatLogLine) = some (sel.map parsedCommit) := by
  induction sel with
  | nil => rfl
  | cons c t ih =>
    simp only [List.map_cons, parseAll]
    rw [parseLine_formatLogLine c (hwf c (by simp)),
      ih (fun d hd => hwf d (by simp [hd]))]

lemma gitLogSelect_subset (repo : List Commit) (limit : Option Int) :
    gitLogSelect repo limit ⊆ repo := by
  unfold gitLogSelect
  cases limit with
  | none => exact fun a ha => ha
  | some n =>
    by_cases hn : n < 0
    · simp [hn]
    · simp only [hn, if_false]
      exact List.take_subset _ _

/-- The whole Lister pipeline on a nonempty selection of well-formed
commits: stripping is the identity, the lines split back apart, and each
line parses to `parsedCommit`. -/
lemma get_commits_eq (repo : List Commit) (num_commits : Option Int)
    (hwf : ∀ c ∈ repo, WFCommit c)
    (hne : gitLogSelect repo (effLimit num_commits) ≠ []) :
    get_commits repo num_commits =
      some ((gitLogSelect repo (effLimit num_commits)).map parsedCommit) := by
  have hwf' : ∀ c ∈ gitLogSelect repo (effLimit num_commits), WFCommit c :=
    fun c hc => hwf c (gitLogSelect_subset repo _ hc)
  unfold get_commits gitLogStdout
  rw [pyStrip_logStdout _ hne hwf',
    splitLines_intercalate _ (by simpa using hne)
      (fun l hl => by
        obtain ⟨c, hc, rfl⟩ := List.mem_map.1 hl
        exact newline_not_mem_formatLogLine c (hwf' c hc))]
  exact parseAll_map_formatLogLine _ hwf'

lemma gitLogSelect_length_le (repo : List Commit) (limit : Option Int) :
    (gitLogSelect repo limit).length ≤ repo.length := by
  unfold gitLogSelect
  cases limit with
  | none => exact Nat.le_refl _
  | some n =>
    by_cases hn : n < 0
    · simp [hn]
    · simp only [hn, if_false]
      exact List.length_take_le' _ _

lemma pySplit_ne_nil (c : Str) (h : ∃ ch ∈ c, pyIsSpace ch = false) :
    pySplit c ≠ [] := by
  induction c with
  | nil =>
    obtain ⟨ch, hm, _⟩ := h
    exact absurd hm (List.not_mem_nil ch)
  | cons a t ih =>
    unfold pySplit
    rw [List.splitOnP_cons]
    by_cases ha : pyIsSpace a
    · rw [if_pos ha]
      have hx : ∃ ch ∈ t, pyIsSpace ch = false := by
        obtain ⟨ch, hm, hs⟩ := h
        rcases List.mem_cons.1 hm with rfl | hmt
        · rw [ha] at hs
          exact absurd hs (by decide)
        · exact ⟨ch, hmt, hs⟩
      have ht := ih hx
      unfold pySplit at ht
      simpa [List.filter_cons] using ht
    · rw [if_neg ha]
      obtain ⟨r, rs, hr⟩ : ∃ r rs, t.splitOnP pyIsSpace = r :: rs := by
        cases hsp : t.splitOnP pyIsSpace with
        | nil => exact absurd hsp (List.splitOnP_ne_nil _ t)
        | cons r rs => exact ⟨r, rs, rfl⟩
      rw [hr]
      simp [List.modifyHead, List.filter_cons]


/-! Claim theorems. -/

/-- C1: `squash_commits` computes `commits_to_squash = min(requested_count,
total_commits)`; when it is greater than 1 it soft-resets to
`HEAD~(commits_to_squash - 1)` and then amends with the new message, when it
equals 1 it only amends (no reset), and when it equals 0 it reports that
there is nothing to squash and issues no mutating command. -/
theorem squasher_min_and_boundary_cases (m : Str) (req tot : Int) :
    (1 < min req tot →
      squash_commits m req tot =
        ⟨[.resetSoft (min req tot - 1), .commitAmend m], false⟩) ∧
    (min req tot = 1 →
      squash_commits m req tot = ⟨[.commitAmend m], false⟩) ∧
    (min req tot = 0 →
      squash_commits m req tot = ⟨[], true⟩) := by
  refine ⟨fun h => ?_, fun h => ?_, fun h => ?_⟩ <;>
    simp [squash_commits, h]

/-- Witness for C1 at the spec's boundary inputs: requested 3 of 5 commits
(reset to HEAD~2 then amend), requested 5 of 1 (amend only), requested 4 of
0 (nothing to squash). -/
theorem squasher_min_and_boundary_cases_witness :
    squash_commits sampleMsg 3 5 =
      ⟨[.resetSoft 2, .commitAmend sampleMsg], false⟩ ∧
    squash_commits sampleMsg 5 1 = ⟨[.commitAmend sampleMsg], false⟩ ∧
    squash_commits sampleMsg 4 0 = ⟨[], true⟩ := by
  refine ⟨?_, ?_, ?_⟩
  · have h := (squasher_min_and_boundary_cases sampleMsg 3 5).1 (by decide)
    simpa using h
  · exact (squasher_min_and_boundary_cases sampleMsg 5 1).2.1 (by decide)
  · exact (squasher_min_and_boundary_cases sampleMsg 4 0).2.2 (by decide)

/-- C7: when the OPENROUTER_API_KEY environment variable is absent the run
reports the condition and exits with status 1, without invoking the Lister,
the Summarizer or the Squasher and without issuing any mutating command. -/
theorem missing_api_key_exits_nonzero (repo : List Commit)
    (num_arg : Option Int) (r : JVal) (confirm : Str) :
    main_flow none repo num_arg r confirm = .configError ∧
    (main_flow none repo num_arg r confirm).exitCode = 1 ∧
    (main_flow none repo num_arg r confirm).mutations = [] :=
  ⟨rfl, rfl, rfl⟩

/-- C8: on a repository with no commits the log stdout is empty, the single
field produced by splitting it is the empty line, `c.split()[0]` has no
token to take, and the Lister fails instead of returning an empty list. -/
theorem empty_repo_lister_fails (num_commits : Option Int) :
    get_commits [] num_commits = none ∧
    get_commits [] num_commits ≠ some [] := by
  have hsel : gitLogSelect [] (effLimit num_commits) = [] := by
    unfold gitLogSelect effLimit
    cases num_commits with
    | none => rfl
    | some n =>
      by_cases h0 : n = 0 <;> by_cases hneg : n < 0 <;> simp [h0, hneg]
  have h : get_commits [] num_commits = none := by
    unfold get_commits gitLogStdout
    rw [hsel]
    rfl
  refine ⟨h, by simp [h]⟩

/-- Witness for C8 at the concrete limit 5: the Lister on an empty
repository produces no list at all. -/
theorem empty_repo_lister_fails_witness :
    get_commits [] (some 5) = none ∧ get_commits [] (some 5) ≠ some [] :=
  empty_repo_lister_fails (some 5)

/-- C10: a supplied commit limit of 0 is falsy in Python (`if num_commits:`),
so the `-n` flag is omitted from the log query and the Lister behaves
exactly as if no limit had been given. -/
theorem limit_zero_means_no_limit (repo : List Commit) :
    get_commits repo (some 0) = get_commits repo none := rfl

/-- C3 counterexample: a repository whose log has k = 1 commit and a
supplied limit of 0.  The claim demands `min(k, limit) = min(1, 0) = 0`
entries, but the Lister returns 1 entry, because `if num_commits:` treats a
0 limit as "no limit". -/
theorem lister_limit_zero_defeats_min :
    (get_commits oneCommitRepo (some 0)).map List.length = some 1 ∧
    min oneCommitRepo.length (Int.toNat 0) = 0 ∧
    (1 : Nat) ≠ 0 := by
  refine ⟨by decide, by decide, by decide⟩

/-- C3 (amended): for every repository whose log has k > 0 well-formed
commits, the Lister returns exactly k entries when no limit is given and
exactly min(k, limit) entries when a positive limit is given (a limit of 0
behaves as if no limit had been given); the returned entries are the images
of the logged commits in the same newest-first order. -/
theorem lister_count_and_order (repo : List Commit)
    (hwf : ∀ c ∈ repo, WFCommit c) (hne : repo ≠ []) :
    (get_commits repo none = some (repo.map parsedCommit) ∧
      (repo.map parsedCommit).length = repo.length) ∧
    ∀ n : Int, 0 < n →
      get_commits repo (some n) = some ((repo.take n.toNat).map parsedCommit) ∧
      ((repo.take n.toNat).map parsedCommit).length = min repo.length n.toNat := by
  constructor
  · constructor
    · simpa [gitLogSelect, effLimit] using
        get_commits_eq repo none hwf (by simpa [gitLogSelect, effLimit] using hne)
    · simp
  · intro n hn
    have hsel : gitLogSelect repo (effLimit (some n)) = repo.take n.toNat := by
      have h0 : ¬ n = 0 := by omega
      have hneg : ¬ n < 0 := by omega
      simp only [effLimit]
      rw [if_neg h0]
      simp only [gitLogSelect]
      rw [if_neg hneg]
    constructor
    · have h := get_commits_eq repo (some n) hwf (by
        rw [hsel]
        intro hnil
        rcases List.take_eq_nil_iff.1 hnil with h0 | h0
        · omega
        · exact hne h0)
      rw [hsel] at h
      exact h
    · simp [List.length_take, Nat.min_comm]

/-- Witness for the amended C3: the two-commit sample repository with
limit 1 yields exactly the newest commit's image. -/
theorem lister_count_and_order_witness :
    get_commits sampleRepo (some 1) =
      some ((sampleRepo.take (Int.toNat 1)).map parsedCommit) :=
  ((lister_count_and_order sampleRepo (by decide) (by decide)).2 1 (by decide)).1

/-- C4: for every remote response of the expected shape, the Summarizer
returns the first choice's message content with leading and trailing
whitespace removed; in particular the mocked response with content
" foo bar " yields "foo bar". -/
theorem summarizer_extracts_trimmed_content (r choice0 msg : JVal)
    (rest : List JVal) (s : Str)
    (h1 : r.getField "choices".toList = some (JVal.jarr (choice0 :: rest)))
    (h2 : choice0.getField "message".toList = some msg)
    (h3 : msg.getField "content".toList = some (JVal.jstr s)) :
    extract_summary r = some (pyStrip s) ∧
    extract_summary mockResponse = some "foo bar".toList := by
  refine ⟨?_, rfl⟩
  unfold extract_summary
  simp only [Option.bind_eq_bind, Option.pure_def]
  rw [h1, Option.some_bind,
    show JVal.getIndex (JVal.jarr (choice0 :: rest)) 0 = some choice0 from rfl,
    Option.some_bind, h2, Option.some_bind, h3, Option.some_bind,
    show JVal.asString (JVal.jstr s) = some s from rfl, Option.some_bind]

/-- Witness for C4 at the spec's mocked response. -/
theorem summarizer_extracts_trimmed_content_witness :
    extract_summary mockResponse = some "foo bar".toList :=
  (summarizer_extracts_trimmed_content mockResponse mockChoice mockMessage []
    " foo bar ".toList rfl rfl rfl).2

/-- C5: the Summarizer's prompt is the fixed instruction followed by the
commit block, and (hashes and messages being newline-free) the block has
exactly one line per commit, in input order, each line being the
7-character short hash, a colon and a space, and the full message. -/
theorem prompt_renders_commits_per_line (commits : List Commit)
    (hne : commits ≠ [])
    (h : ∀ c ∈ commits, ('\n') ∉ c.hash ∧ ('\n') ∉ c.message) :
    buildPrompt commits = promptInstr ++ commit_messages commits ∧
    splitLines (commit_messages commits) =
      commits.map (fun c => c.hash.take 7 ++ ':' :: ' ' :: c.message) := by
  refine ⟨rfl, ?_⟩
  have hsplit := splitLines_intercalate (commits.map commitLine)
    (by simpa using hne)
    (fun l hl => by
      obtain ⟨c, hc, rfl⟩ := List.mem_map.1 hl
      intro hmem
      unfold commitLine at hmem
      rcases List.mem_append.1 hmem with hm | hm
      · exact (h c hc).1 (List.take_subset _ _ hm)
      · rcases List.mem_cons.1 hm with h' | h'
        · exact absurd h' (by decide)
        · rcases List.mem_cons.1 h' with h'' | h''
          · exact absurd h'' (by decide)
          · exact (h c hc).2 h'')
  unfold commit_messages
  rw [hsplit]
  rfl

/-- Witness for C5 at the two-commit sample repository. -/
theorem prompt_renders_commits_per_line_witness :
    splitLines (commit_messages sampleRepo) =
      sampleRepo.map (fun c => c.hash.take 7 ++ ':' :: ' ' :: c.message) :=
  (prompt_renders_commits_per_line sampleRepo (by decide) (by decide)).2

/-- C6: a log output line containing at least one token (every real log
line starts with the hash) is parsed by splitting on whitespace, taking the
first token as the hash and the remaining tokens rejoined with single
spaces as the message. -/
theorem line_parse_first_token_hash (c : Str)
    (h : ∃ ch ∈ c, pyIsSpace ch = false) :
    parseLine c =
      some ⟨(pySplit c).headI, List.intercalate [' '] (pySplit c).tail⟩ := by
  have hne := pySplit_ne_nil c h
  unfold parseLine
  cases hsp : pySplit c with
  | nil => exact absurd hsp hne
  | cons a t => rfl

/-- Witness for C6: a line with internal double spaces parses into the
first token and the single-space rejoined remainder. -/
theorem line_parse_first_token_hash_witness :
    parseLine "abc123  fix  bug".toList =
      some ⟨"abc123".toList, "fix bug".toList⟩ := by
  have h := line_parse_first_token_hash "abc123  fix  bug".toList (by decide)
  rw [h]
  rfl

/-- C2: with the API key present and the Lister and Summarizer succeeding,
history is mutated only on a case-insensitive `y`: any other answer yields
the cancellation outcome with no mutating command and a normal exit, while
`y` invokes the Squasher (after which the run prints the confirmation
message). -/
theorem confirmation_gates_squash (k : Str) (hk : k ≠ [])
    (repo : List Commit) (num_arg : Option Int) (r : JVal) (confirm : Str)
    (commits : List Commit) (summary : Str)
    (hc : get_commits repo num_arg = some commits)
    (hs : extract_summary r = some summary) :
    (pyLower confirm ≠ ['y'] →
      main_flow (some k) repo num_arg r confirm = .cancelled commits summary ∧
      (main_flow (some k) repo num_arg r confirm).mutations = [] ∧
      (main_flow (some k) repo num_arg r confirm).exitCode = 0) ∧
    (pyLower confirm = ['y'] →
      main_flow (some k) repo num_arg r confirm =
        .squashed commits summary
          (squash_commits summary (commits.length : Int) (repo.length : Int))) := by
  have hkE : k.isEmpty = false := by simpa [List.isEmpty_iff] using hk
  constructor
  · intro hn
    have hmain : main_flow (some k) repo num_arg r confirm =
        .cancelled commits summary := by
      simp [main_flow, hkE, hc, hs, hn]
    exact ⟨hmain, by rw [hmain]; rfl, by rw [hmain]; rfl⟩
  · intro hy
    simp [main_flow, hkE, hc, hs, hy]

/-- Witness for C2: the sample run answered `"N"` is cancelled with no
mutating command. -/
theorem confirmation_gates_squash_witness :
    main_flow (some "key".toList) sampleRepo none mockResponse "N".toList =
      .cancelled (sampleRepo.map parsedCommit) "foo bar".toList :=
  ((confirmation_gates_squash "key".toList (by decide) sampleRepo none
    mockResponse "N".toList (sampleRepo.map parsedCommit) "foo bar".toList
    (by decide) rfl).1 (by decide)).1

/-- C9: in the end-to-end flow the count passed to the Squasher is the
length of the CommitList the Lister returned (not the raw `--num-commits`
argument), and that length never exceeds the repository's true total, so
the `min` inside the Squasher leaves it unchanged: the number of commits
squashed equals the number listed and summarized. -/
theorem squash_count_equals_listed_count (k : Str) (hk : k ≠ [])
    (repo : List Commit) (num_arg : Option Int) (r : JVal) (confirm : Str)
    (summary : Str)
    (hwf : ∀ c ∈ repo, WFCommit c)
    (hne : gitLogSelect repo (effLimit num_arg) ≠ [])
    (hs : extract_summary r = some summary)
    (hy : pyLower confirm = ['y']) :
    main_flow (some k) repo num_arg r confirm =
      .squashed ((gitLogSelect repo (effLimit num_arg)).map parsedCommit)
        summary
        (squash_commits summary
          (((gitLogSelect repo (effLimit num_arg)).map parsedCommit).length : Int)
          (repo.length : Int)) ∧
    min ((((gitLogSelect repo (effLimit num_arg)).map parsedCommit).length : Nat) : Int)
      (repo.length : Int) =
      (((gitLogSelect repo (effLimit num_arg)).map parsedCommit).length : Int) := by
  have hc := get_commits_eq repo num_arg hwf hne
  have hkE : k.isEmpty = false := by simpa [List.isEmpty_iff] using hk
  constructor
  · simp [main_flow, hkE, hc, hs, hy]
  · rw [List.length_map]
    exact Int.min_eq_left (Int.ofNat_le.2 (gitLogSelect_length_le repo _))

/-- Witness for C9: the sample run answered `"y"` squashes exactly the two
listed commits (reset to HEAD~1, then amend). -/
theorem squash_count_equals_listed_count_witness :
    main_flow (some "key".toList) sampleRepo none mockResponse "y".toList =
      .squashed (sampleRepo.map parsedCommit) "foo bar".toList
        (squash_commits "foo bar".toList
          ((sampleRepo.map parsedCommit).length : Int)
          (sampleRepo.length : Int)) :=
  (squash_count_equals_listed_count "key".toList (by decide) sampleRepo none
    mockResponse "y".toList "foo bar".toList (by decide) (by decide) rfl
    (by decide)).1

end LLMsquash
